import Mathlib

/-
Shallow embedding of the prompt-library web application
(`app/models.py`, `app/routers/public.py`, `app/routers/admin.py`,
`app/routers/htmx.py`, `seed/import_seed.py`).

The database session is modelled as an explicit record of row lists; SQL
queries are list filters; committed unique constraints (`Category.name`,
`Category.slug` are declared `unique=True` in `models.py`) are modelled as
an integrity-error result when a duplicate is inserted.  `json.loads` /
`json.dumps` are modelled by an executable fuel-based JSON parser and
printer over an inductive JSON value type.
-/

namespace PromptLib

/-! ## String utilities

String primitives are implemented over `List Char` so that every model
function evaluates inside the kernel. -/

/-- ASCII lowercase, as Python `str.lower` and SQL `ILIKE` fold ASCII. -/
def lowerAscii (s : String) : String := String.mk (s.toList.map Char.toLower)

/-- True when `pat` occurs at the head of `hay`. -/
def prefAt : List Char → List Char → Bool
  | [], _ => true
  | _ :: _, [] => false
  | c :: cs, d :: ds => c == d && prefAt cs ds

/-- True when `needle` occurs as a contiguous run inside `hay`. -/
def hasSub (hay needle : List Char) : Bool :=
  match hay with
  | [] => needle.isEmpty
  | _ :: t => prefAt needle hay || hasSub t needle

/-- Case-insensitive substring test, modelling SQL `col ILIKE '%pat%'`. -/
def containsCI (hay pat : String) : Bool :=
  hasSub (hay.toList.map Char.toLower) (pat.toList.map Char.toLower)

/-- Strip leading and trailing whitespace, modelling Python `str.strip`. -/
def stripChars (l : List Char) : List Char :=
  ((l.dropWhile Char.isWhitespace).reverse.dropWhile Char.isWhitespace).reverse

/-- String-level strip, modelling Python `str.strip` / `String.trim`. -/
def pyStrip (s : String) : String := String.mk (stripChars s.toList)

/-- Split into the maximal runs not containing `sep`, keeping empty
segments, modelling Python `str.split(sep)` for a one-character
separator. -/
def splitSeg (sep : Char) : List Char → List Char → List (List Char)
  | [], acc => [acc.reverse]
  | c :: cs, acc =>
    if c == sep then acc.reverse :: splitSeg sep cs []
    else splitSeg sep cs (c :: acc)

/-- Digit-run value; `none` when the run is empty or holds a non-digit. -/
def digitsToNat (l : List Char) : Option Nat :=
  if l.isEmpty then none
  else
    l.foldl (fun acc c =>
      match acc with
      | none => none
      | some n => if c.isDigit then some (n * 10 + (c.toNat - 48)) else none)
      (some 0)

/-! ## JSON values, parser (`json.loads`) and printer (`json.dumps`) -/

/-- JSON values as returned by `json.loads`. -/
inductive JVal where
  | jnull
  | jbool (b : Bool)
  | jnum (n : Int)
  | jstr (s : String)
  | jarr (xs : List JVal)
deriving Repr

/-- The double-quote character. -/
def qc : Char := Char.ofNat 34

/-- The backslash character. -/
def bsl : Char := Char.ofNat 92

/-- Whitespace as skipped by the JSON grammar. -/
def isWsC (c : Char) : Bool := c == ' ' || c == '\t' || c == '\n' || c == '\r'

/-- Drop leading JSON whitespace. -/
def skipWs : List Char → List Char
  | [] => []
  | c :: cs => if isWsC c then skipWs cs else c :: cs

/-- Parse the body of a JSON string after the opening quote, handling the
escapes for quote and backslash; returns the decoded characters and the
input remaining after the closing quote. -/
def parseStrBody : List Char → Option (List Char × List Char)
  | [] => none
  | c :: cs =>
    if c == qc then some ([], cs)
    else if c == bsl then
      match cs with
      | [] => none
      | e :: cs2 =>
        if e == qc || e == bsl then
          match parseStrBody cs2 with
          | some (content, rest) => some (e :: content, rest)
          | none => none
        else none
    else
      match parseStrBody cs with
      | some (content, rest) => some (c :: content, rest)
      | none => none

/-- Parse a run of decimal digits into a natural number accumulator. -/
def parseDigits : List Char → Nat → Option (Nat × List Char)
  | [], _ => none
  | c :: cs, acc =>
    if c.isDigit then
      let acc := acc * 10 + (c.toNat - 48)
      match cs with
      | [] => some (acc, [])
      | d :: _ => if d.isDigit then parseDigits cs acc else some (acc, cs)
    else none

mutual

/-- Fuel-based JSON value parser (nulls, booleans, integers, strings,
arrays), modelling `json.loads`. -/
def parseVal : Nat → List Char → Option (JVal × List Char)
  | 0, _ => none
  | Nat.succ fuel, input =>
    match skipWs input with
    | [] => none
    | c :: rest =>
      if c == qc then
        match parseStrBody rest with
        | some (content, rem) => some (JVal.jstr (String.mk content), rem)
        | none => none
      else if c == '[' then
        match skipWs rest with
        | [] => none
        | c2 :: r2 =>
          if c2 == ']' then some (JVal.jarr [], r2)
          else
            match parseItems fuel (c2 :: r2) with
            | some (vs, rem) => some (JVal.jarr vs, rem)
            | none => none
      else if c == 'n' then
        if prefAt ['u', 'l', 'l'] rest then some (JVal.jnull, rest.drop 3) else none
      else if c == 't' then
        if prefAt ['r', 'u', 'e'] rest then some (JVal.jbool true, rest.drop 3) else none
      else if c == 'f' then
        if prefAt ['a', 'l', 's', 'e'] rest then some (JVal.jbool false, rest.drop 4) else none
      else if c == '-' then
        match parseDigits rest 0 with
        | some (n, rem) => some (JVal.jnum (-(n : Int)), rem)
        | none => none
      else if c.isDigit then
        match parseDigits (c :: rest) 0 with
        | some (n, rem) => some (JVal.jnum (n : Int), rem)
        | none => none
      else none

/-- Parse the comma-separated elements of a JSON array up to and including
the closing bracket. -/
def parseItems : Nat → List Char → Option (List JVal × List Char)
  | 0, _ => none
  | Nat.succ fuel, input =>
    match parseVal fuel input with
    | none => none
    | some (v, rest) =>
      match skipWs rest with
      | [] => none
      | c :: r =>
        if c == ',' then
          match parseItems fuel (skipWs r) with
          | some (vs, rem) => some (v :: vs, rem)
          | none => none
        else if c == ']' then some ([v], r)
        else none

end

/-- Model of `json.loads`: parse the whole string, requiring only trailing
whitespace after the value; `none` models `json.JSONDecodeError`. -/
def jLoads (s : String) : Option JVal :=
  match parseVal (s.length + 1) s.toList with
  | some (v, rest) => if (skipWs rest).isEmpty then some v else none
  | none => none

/-- Escape quote and backslash characters as `json.dumps` does. -/
def escChars : List Char → List Char
  | [] => []
  | c :: cs =>
    if c == qc || c == bsl then bsl :: c :: escChars cs else c :: escChars cs

/-- Characters of a JSON string literal for `s`, quotes included. -/
def qstrChars (s : String) : List Char := qc :: (escChars s.toList ++ [qc])

/-- Characters of the comma-separated items of a dumped string array,
using the `", "` separator that `json.dumps` emits by default. -/
def itemsChars : List String → List Char
  | [] => []
  | [s] => qstrChars s
  | s :: rest => qstrChars s ++ (',' :: ' ' :: itemsChars rest)

/-- Model of `json.dumps` applied to a list of strings. -/
def jDumpsList (ps : List String) : String :=
  String.mk ('[' :: (itemsChars ps ++ [']']))

/-- Python truthiness of a decoded JSON value. -/
def pyTruthyJ : JVal → Bool
  | JVal.jnull => false
  | JVal.jbool b => b
  | JVal.jnum n => n != 0
  | JVal.jstr s => !s.isEmpty
  | JVal.jarr xs => !xs.isEmpty

/-- Python truthiness of a nullable stored string column. -/
def pyTruthyS : Option String → Bool
  | none => false
  | some s => !s.isEmpty

mutual

/-- Model of `json.dumps` on an arbitrary decoded value (used when a
decoded payload is re-serialized by `set_platforms`). -/
def jDumpsVal : JVal → List Char
  | JVal.jnull => ['n', 'u', 'l', 'l']
  | JVal.jbool true => ['t', 'r', 'u', 'e']
  | JVal.jbool false => ['f', 'a', 'l', 's', 'e']
  | JVal.jnum n => (toString n).toList
  | JVal.jstr s => qstrChars s
  | JVal.jarr xs => '[' :: (jDumpsItems xs ++ [']'])

/-- Comma-separated dumped array elements. -/
def jDumpsItems : List JVal → List Char
  | [] => []
  | [v] => jDumpsVal v
  | v :: rest => jDumpsVal v ++ (',' :: ' ' :: jDumpsItems rest)

end

/-! ## Data model (`app/models.py`)

Rows carry the columns the routers read or write; timestamp columns that no
claim observes are omitted, except `reviewed_at`, which the moderation
workflow stamps.  Ids are integers as in the SQLite schema. -/

/-- A `Category` row. -/
structure Category where
  id : Int
  name : String
  slug : String
  description : Option String
  parent_id : Option Int
  sort_order : Int
deriving Repr, DecidableEq

/-- A `Prompt` row. -/
structure Prompt where
  id : Int
  title : String
  body : String
  category_id : Int
  subcategory_id : Option Int
  ai_platforms : Option String
  instructions : Option String
  tags : Option String
  status : String
  created_by : Option Int
deriving Repr, DecidableEq

/-- A `PromptSubmission` row. -/
structure Submission where
  id : Int
  title : String
  body : String
  category_id : Option Int
  subcategory_id : Option Int
  ai_platforms : Option String
  instructions : Option String
  tags : Option String
  suggested_category_name : Option String
  status : String
  submitted_by : Option Int
  reviewer_notes : Option String
  approved_prompt_id : Option Int
  reviewed_at : Option Int
deriving Repr, DecidableEq

/-- The relational store: row lists plus autoincrement counters. -/
structure Db where
  cats : List Category
  prompts : List Prompt
  subs : List Submission
  nextCatId : Int
  nextPromptId : Int
  nextSubId : Int
deriving Repr, DecidableEq

/-- Error taxonomy: HTTP statuses raised by the routers.  `internalErr`
models an uncaught exception (such as an `IntegrityError` from a violated
unique constraint) surfacing as a 500 response. -/
inductive HErr where
  | notFound
  | badRequest
  | conflict
  | internalErr
deriving Repr, DecidableEq

/-- Model of `Prompt.get_platforms` / `PromptSubmission.get_platforms`
(`models.py`): a falsy column decodes to the empty list; otherwise
`json.loads` is attempted and on a decode error the raw payload is lifted
into a one-element list. -/
def get_platforms (ai : Option String) : JVal :=
  if pyTruthyS ai then
    match ai with
    | some s =>
      match jLoads s with
      | some v => v
      | none => JVal.jarr [JVal.jstr s]
    | none => JVal.jarr []
  else JVal.jarr []

/-- Model of `set_platforms` (`models.py`): a truthy value is stored as its
JSON dump, a falsy one stores SQL `NULL`. -/
def set_platforms (v : JVal) : Option String :=
  if pyTruthyJ v then some (String.mk (jDumpsVal v)) else none

/-- Store a list of platform strings, as `set_platforms(platforms)` does
when the caller passes a Python list of strings. -/
def set_platforms_list (ps : List String) : Option String :=
  set_platforms (JVal.jarr (ps.map JVal.jstr))

/-! ## Model of `slugify` (python-slugify, ASCII inputs)

Lowercases, replaces non-alphanumeric runs by single hyphens, and strips
hyphens at both ends. -/

/-- True for ASCII letters and digits. -/
def isAlnumC (c : Char) : Bool := c.isAlpha || c.isDigit

/-- Slug computation used by both category-creation paths. -/
def slugify (s : String) : String :=
  let replaced := s.toList.map (fun c =>
    let lc := Char.toLower c
    if isAlnumC lc then lc else ' ')
  String.intercalate "-"
    (((splitSeg ' ' replaced []).filter (fun w => !w.isEmpty)).map String.mk)

/-! ## Public router (`app/routers/public.py`) -/

/-- Text filter of `list_prompts`: `ILIKE` against title, body or
instructions; the `instructions` disjunct is false on a NULL column as in
SQL. -/
def matchesQuery (q : String) (p : Prompt) : Bool :=
  containsCI p.title q || containsCI p.body q ||
    (match p.instructions with
     | some i => containsCI i q
     | none => false)

/-- Category filter of `list_prompts` (`public.py` lines 37-43, and the
same clause in `htmx.py`): direct equality against `category_id` or
`subcategory_id`; guarded by Python truthiness of the parameter. -/
def matchesCategory (category : Option Int) (p : Prompt) : Bool :=
  match category with
  | none => true
  | some c => if c == 0 then true else p.category_id == c || p.subcategory_id == some c

/-- Platform filter of `list_prompts`: the source compares the Python
property object `Prompt.ai_platform` (not a column) with the string, which
evaluates to the constant `False` clause, so a truthy `platform` argument
filters out every row. -/
def matchesPlatform (platform : Option String) (_p : Prompt) : Bool :=
  match platform with
  | none => true
  | some s => if s.isEmpty then true else false

/-- The materialized pre-pagination result set of `list_prompts`: published
rows passing the query, category and platform filters. -/
def matchedPrompts (db : Db) (query : String) (category : Option Int)
    (platform : Option String) : List Prompt :=
  db.prompts.filter (fun p =>
    p.status == "published"
    && (query.isEmpty || matchesQuery query p)
    && matchesCategory category p
    && matchesPlatform platform p)

/-- Python slice index normalization for a sequence of length `n`. -/
def pyIndex (n : Nat) (i : Int) : Nat :=
  if i < 0 then ((n : Int) + i).toNat else min i.toNat n

/-- Python slice `l[i:j]`. -/
def pySlice {α : Type} (l : List α) (i j : Int) : List α :=
  let a := pyIndex l.length i
  let b := pyIndex l.length j
  (l.drop a).take (b - a)

/-- The JSON page returned by `list_prompts`. -/
structure PageResult where
  items : List Prompt
  total : Nat
  page : Int
  pageSize : Int
  totalPages : Int
deriving Repr, DecidableEq

/-- Model of `GET /api/prompts` (`public.py` `list_prompts`): filter, then
offset pagination with Python slice semantics; `none` models the
uncaught `ZeroDivisionError` from `(total + page_size - 1) // page_size`
when `page_size` is zero.  Neither `page` nor `page_size` is validated. -/
def list_prompts (db : Db) (query : String) (category : Option Int)
    (platform : Option String) (page pageSize : Int) : Option PageResult :=
  let ms := matchedPrompts db query category platform
  let total := ms.length
  if pageSize == 0 then none
  else
    let start := (page - 1) * pageSize
    some { items := pySlice ms start (start + pageSize)
           total := total
           page := page
           pageSize := pageSize
           totalPages := Int.fdiv ((total : Int) + pageSize - 1) pageSize }

/-- Model of `GET /api/prompts/{id}` (`public.py` `get_prompt`): 404 unless
the row exists and is published. -/
def get_prompt (db : Db) (pid : Int) : Option Prompt :=
  match db.prompts.find? (fun p => p.id == pid) with
  | some p => if p.status == "published" then some p else none
  | none => none

/-- Model of the admin unrestricted read `GET /api/prompts`
(`admin.py` `admin_prompts`): every row, no status filter. -/
def admin_prompts (db : Db) : List Prompt := db.prompts

/-- Model of Python `int(s)` on a form string: `none` is the
`ValueError` path. -/
def pyInt (s : String) : Option Int :=
  match stripChars s.toList with
  | [] => none
  | '-' :: ds => (digitsToNat ds).map (fun n => -(n : Int))
  | '+' :: ds => (digitsToNat ds).map (fun n => (n : Int))
  | ds => (digitsToNat ds).map (fun n => (n : Int))

/-- Platform values assembled by `create_submission` from the checkbox list
and the free-form `ai_platforms` field (`public.py` lines 104-116). -/
def submissionPlatforms (platform_choice : List String)
    (ai_platforms : Option String) : JVal :=
  if !platform_choice.isEmpty then JVal.jarr (platform_choice.map JVal.jstr)
  else
    match ai_platforms with
    | none => JVal.jarr []
    | some s =>
      if s.isEmpty then JVal.jarr []
      else if (match s.toList with
               | c :: _ => c == '['
               | [] => false) then
        match jLoads s with
        | some v => v
        | none => JVal.jarr [JVal.jstr s]
      else
        JVal.jarr ((((splitSeg ',' s.toList []).map
          (fun w => String.mk (stripChars w))).filter
            (fun w => !w.isEmpty)).map JVal.jstr)

/-- Model of `POST /api/submissions` (`public.py` `create_submission`).
The `category_id` form field is a string that is either the literal
`"new"` or a numeric id; on `"new"` a blank suggestion is a 400 and no row
is inserted, on a numeric id the suggested name is silently set to `None`;
a non-numeric value is a 400. -/
def create_submission (db : Db) (title body : String) (category_id : String)
    (subcategory_id : Option Int) (platform_choice : List String)
    (ai_platforms : Option String) (suggested_category_name : Option String)
    (instructions tags : Option String) : Except HErr (Db × Int) :=
  let resolved : Except HErr (Option Int × Option String) :=
    if category_id == "new" then
      match suggested_category_name with
      | none => Except.error HErr.badRequest
      | some s =>
        if pyStrip s == "" then Except.error HErr.badRequest
        else Except.ok (none, some s)
    else
      match pyInt category_id with
      | none => Except.error HErr.badRequest
      | some n => Except.ok (some n, none)
  match resolved with
  | Except.error e => Except.error e
  | Except.ok (actual_category_id, sugg) =>
    let pv := submissionPlatforms platform_choice ai_platforms
    let sub : Submission :=
      { id := db.nextSubId
        title := title
        body := body
        category_id := actual_category_id
        subcategory_id := subcategory_id
        ai_platforms := if pyTruthyJ pv then set_platforms pv else none
        instructions := instructions
        tags := tags
        suggested_category_name := sugg
        status := "pending"
        submitted_by := none
        reviewer_notes := none
        approved_prompt_id := none
        reviewed_at := none }
    Except.ok ({ db with subs := db.subs ++ [sub], nextSubId := db.nextSubId + 1 },
               sub.id)

/-! ## Admin router (`app/routers/admin.py`) -/

/-- SQL `max(Category.sort_order)` with the Python `(... or 0)` fallback. -/
def maxSortOrder (cats : List Category) : Int :=
  cats.foldl (fun acc c => max acc c.sort_order) 0

/-- Model of `POST /api/categories` (`admin.py` `create_category`): no
duplicate check is performed before the insert, so a name or slug equal to
an existing row violates the unique constraints of `models.py` and the
commit raises, surfacing as an uncaught 500. -/
def create_category (db : Db) (name : String) (description : String)
    (parent_id : Option Int) : Except HErr (Db × Int) :=
  let slug := slugify name
  let cat : Category :=
    { id := db.nextCatId
      name := name
      slug := slug
      description := some description
      parent_id := parent_id
      sort_order := maxSortOrder db.cats + 1 }
  if db.cats.any (fun c => c.name == name || c.slug == slug) then
    Except.error HErr.internalErr
  else
    Except.ok ({ db with cats := db.cats ++ [cat], nextCatId := db.nextCatId + 1 },
               cat.id)

/-- Model of `DELETE /api/prompts/{id}` (`admin.py` `delete_prompt`): a
soft delete that sets `status` to `archived`; never removes the row. -/
def delete_prompt (db : Db) (pid : Int) : Option Db :=
  match db.prompts.find? (fun p => p.id == pid) with
  | none => none
  | some _ =>
    some { db with
           prompts := db.prompts.map (fun p =>
             if p.id == pid then { p with status := "archived" } else p) }

/-- Stable insertion into a list sorted ascending by `sort_order`: an
element coming earlier in the original order stays before equal keys. -/
def insertSorted (a : Category) : List Category → List Category
  | [] => [a]
  | b :: bs =>
    if b.sort_order < a.sort_order then b :: insertSorted a bs else a :: b :: bs

/-- Stable sort by `sort_order`, modelling `ORDER BY sort_order`. -/
def orderBySort (l : List Category) : List Category :=
  l.foldr insertSorted []

/-- Per-category prompt counts computed by the admin categories page
(`admin.py` `admin_categories_page` lines 509-529): for each category, the
number of `Prompt` rows whose `category_id` equals that category id
exactly; no status filter and no subtree aggregation. -/
def admin_category_counts (db : Db) : List (Int × Nat) :=
  (orderBySort db.cats).map (fun c =>
    (c.id, (db.prompts.filter (fun p => p.category_id == c.id)).length))

/-- First category below `c` in the global sort order: the row selected by
`sort_order < c.sort_order ORDER BY sort_order DESC LIMIT 1`, keeping the
earlier row on equal keys as a stable ordering does. -/
def bestPrev (c : Category) : List Category → Option Category
  | [] => none
  | x :: xs =>
    match bestPrev c xs with
    | none => if x.sort_order < c.sort_order then some x else none
    | some b =>
      if x.sort_order < c.sort_order && b.sort_order ≤ x.sort_order then some x
      else some b

/-- First category above `c` in the global sort order: the row selected by
`sort_order > c.sort_order ORDER BY sort_order ASC LIMIT 1`, keeping the
earlier row on equal keys. -/
def bestNext (c : Category) : List Category → Option Category
  | [] => none
  | x :: xs =>
    match bestNext c xs with
    | none => if c.sort_order < x.sort_order then some x else none
    | some b =>
      if c.sort_order < x.sort_order && x.sort_order ≤ b.sort_order then some x
      else some b

/-- Swap the `sort_order` values of the rows with the ids of `a` and `b`. -/
def swapSorts (cats : List Category) (a b : Category) : List Category :=
  cats.map (fun x =>
    if x.id == a.id then { x with sort_order := b.sort_order }
    else if x.id == b.id then { x with sort_order := a.sort_order }
    else x)

/-- Model of `PATCH /api/categories/{id}/move-up`
(`admin.py` `move_category_up`): swap `sort_order` with the nearest
strictly-lower row over all categories, or an informational no-op when
already first; `none` is the 404 on a missing id. -/
def move_category_up (cats : List Category) (cid : Int) : Option (List Category) :=
  match cats.find? (fun x => x.id == cid) with
  | none => none
  | some c =>
    match bestPrev c cats with
    | none => some cats
    | some p => some (swapSorts cats c p)

/-- Model of `PATCH /api/categories/{id}/move-down`
(`admin.py` `move_category_down`). -/
def move_category_down (cats : List Category) (cid : Int) : Option (List Category) :=
  match cats.find? (fun x => x.id == cid) with
  | none => none
  | some c =>
    match bestNext c cats with
    | none => some cats
    | some p => some (swapSorts cats c p)

/-! ## Moderation (`admin.py` `review_submission`) -/

/-- Outcome of the category-resolution block inside `review_submission`:
the resolved final category id together with the possibly extended
category table and counter. -/
def resolveCategory (db : Db) (sub : Submission) (category_action : Option String)
    (category_id : Option Int) (new_category_name : Option String) :
    Except HErr (Db × Option Int) :=
  if pyTruthyS sub.suggested_category_name &&
     pyTruthyS category_action then
    let action := category_action.getD ""
    if action == "existing" then
      match category_id with
      | none => Except.error HErr.badRequest
      | some cid =>
        if cid == 0 then Except.error HErr.badRequest
        else
          match db.cats.find? (fun c => c.id == cid) with
          | none => Except.error HErr.notFound
          | some _ => Except.ok (db, some cid)
    else if action == "new" then
      match new_category_name with
      | none => Except.error HErr.badRequest
      | some raw =>
        let category_name := pyStrip raw
        if category_name == "" then Except.error HErr.badRequest
        else
          let base_slug := slugify category_name
          match db.cats.find? (fun c =>
              c.name == category_name || c.slug == base_slug) with
          | some existing => Except.ok (db, some existing.id)
          | none =>
            let cat : Category :=
              { id := db.nextCatId
                name := category_name
                slug := base_slug
                description := some ("Category created from user suggestion: "
                  ++ (sub.suggested_category_name.getD ""))
                parent_id := none
                sort_order := maxSortOrder db.cats + 1 }
            let db2 : Db :=
              { db with
                cats := db.cats ++ [cat]
                nextCatId := db.nextCatId + 1 }
            Except.ok (db2, some cat.id)
    else Except.ok (db, sub.category_id)
  else Except.ok (db, sub.category_id)

/-- Model of `PATCH /api/submissions/{id}` (`admin.py` `review_submission`).
No check of the current submission status is made: any existing submission
is overwritten with the new decision, notes and review time.  On approval
the category is resolved (with the name/slug dedupe of lines 100-138), a
published prompt copying the submission is inserted and
`approved_prompt_id` is set; an error leaves the store unchanged, as no
commit has happened on the error paths. -/
def review_submission (db : Db) (sid : Int) (status : String)
    (reviewer_notes : String) (category_action : Option String)
    (category_id : Option Int) (new_category_name : Option String)
    (now : Int) : Except HErr Db :=
  match db.subs.find? (fun s => s.id == sid) with
  | none => Except.error HErr.notFound
  | some sub =>
    if !(status == "approved" || status == "rejected") then
      Except.error HErr.badRequest
    else
      let sub1 : Submission :=
        { sub with status := status, reviewer_notes := some reviewer_notes,
                   reviewed_at := some now }
      if status == "approved" then
        match resolveCategory db sub category_action category_id
            new_category_name with
        | Except.error e => Except.error e
        | Except.ok (db1, final_category_id) =>
          match final_category_id with
          | none => Except.error HErr.badRequest
          | some fcid =>
            if fcid == 0 then Except.error HErr.badRequest
            else
              let prompt : Prompt :=
                { id := db1.nextPromptId
                  title := sub.title
                  body := sub.body
                  category_id := fcid
                  subcategory_id := sub.subcategory_id
                  ai_platforms := set_platforms (get_platforms sub.ai_platforms)
                  instructions := sub.instructions
                  tags := sub.tags
                  status := "published"
                  created_by := sub.submitted_by }
              let sub2 := { sub1 with approved_prompt_id := some prompt.id }
              Except.ok { db1 with
                prompts := db1.prompts ++ [prompt]
                nextPromptId := db1.nextPromptId + 1
                subs := db1.subs.map (fun s => if s.id == sid then sub2 else s) }
      else
        Except.ok { db with
          subs := db.subs.map (fun s => if s.id == sid then sub1 else s) }

/-! ## Seed import (`seed/import_seed.py` `import_seed_data`) -/

/-- One record of the seed JSON file. -/
structure SeedItem where
  category : String
  title : String
  body : String
  status : String
  tags : Option String
deriving Repr, DecidableEq

/-- The category row the seed import inserts for an unseen name. -/
def seedNewCat (db : Db) (cn : String) : Category :=
  { id := db.nextCatId
    name := cn
    slug := slugify cn
    description := some ("Category for " ++ cn ++ " prompts")
    parent_id := none
    sort_order := 0 }

/-- The store after the seed import inserts a category for `cn`. -/
def seedCatInsert (db : Db) (cn : String) : Db :=
  { db with cats := db.cats ++ [seedNewCat db cn], nextCatId := db.nextCatId + 1 }

/-- Processing of one seed record: skip on a blank category name, else get
or create the category (cache first, then table lookup by exact name, then
insert) and insert the prompt unless a row with the same title and
category id exists.  The category lookup is by exact name only, so an
unseen name whose computed slug collides with an existing row violates the
unique constraints of `models.py` at commit: the script has no handler, the
`IntegrityError` aborts the run, modelled as the error result. -/
def seedStep (st : Db × List (String × Category)) (item : SeedItem) :
    Except HErr (Db × List (String × Category)) :=
  let db := st.1
  let cache := st.2
  let cn := pyStrip item.category
  if cn == "" then Except.ok st
  else
    let next : Except HErr (Db × List (String × Category) × Category) :=
      match cache.lookup cn with
      | some cat => Except.ok (db, cache, cat)
      | none =>
        match db.cats.find? (fun c => c.name == cn) with
        | some existing => Except.ok (db, cache ++ [(cn, existing)], existing)
        | none =>
          if db.cats.any (fun c => c.name == cn || c.slug == slugify cn) then
            Except.error HErr.internalErr
          else
            Except.ok (seedCatInsert db cn,
              cache ++ [(cn, seedNewCat db cn)], seedNewCat db cn)
    match next with
    | Except.error e => Except.error e
    | Except.ok (db1, cache1, cat) =>
      match db1.prompts.find? (fun p =>
          p.title == item.title && p.category_id == cat.id) with
      | some _ => Except.ok (db1, cache1)
      | none =>
        let prompt : Prompt :=
          { id := db1.nextPromptId
            title := item.title
            body := item.body
            category_id := cat.id
            subcategory_id := none
            ai_platforms := none
            instructions := none
            tags := item.tags
            status := item.status
            created_by := none }
        let db2 : Db :=
          { db1 with
            prompts := db1.prompts ++ [prompt]
            nextPromptId := db1.nextPromptId + 1 }
        Except.ok (db2, cache1)

/-- The record loop of the import: each record is processed in order and
an integrity error aborts the remaining records, as the uncaught exception
does in the script. -/
def seedRun : Db → List (String × Category) → List SeedItem → Except HErr Db
  | db, _, [] => Except.ok db
  | db, cache, item :: rest =>
    match seedStep (db, cache) item with
    | Except.error e => Except.error e
    | Except.ok st1 => seedRun st1.1 st1.2 rest

/-- Model of `import_seed_data`: fold over the seed records with an empty
category cache; the error result is the aborted run. -/
def import_seed_data (db : Db) (items : List SeedItem) : Except HErr Db :=
  seedRun db [] items

/-- The cache invariant of the seed import: every cached binding is the
first category row carrying that name. -/
def seedCacheOk (db : Db) (cache : List (String × Category)) : Prop :=
  ∀ n cat, (n, cat) ∈ cache → db.cats.find? (fun c => c.name == n) = some cat

/-- A seed record is covered by a store when it would be skipped: blank
category, or the canonical category row for its name exists together with
a prompt row carrying the record's title under that category. -/
def seedCovers (db : Db) (it : SeedItem) : Prop :=
  pyStrip it.category = "" ∨
  ∃ cat, db.cats.find? (fun c => c.name == pyStrip it.category) = some cat ∧
    ∃ p, p ∈ db.prompts ∧ p.title = it.title ∧ p.category_id = cat.id

/-- The import only appends rows: the later store extends the earlier. -/
def dbExtends (d1 d2 : Db) : Prop :=
  (∃ l, d2.cats = d1.cats ++ l) ∧ (∃ l, d2.prompts = d1.prompts ++ l)

/-! ## Spec-side definitions for refinement comparison

The source has no tree-walk code at all; these definitions follow the
specification text so that the behaviour of the flat queries above can be
compared against the subtree semantics the specification describes. -/

/-- Children ids of a node under the parent-link adjacency. -/
def childrenOf (cats : List Category) (i : Int) : List Int :=
  (cats.filter (fun c => c.parent_id == some i)).map (fun c => c.id)

/-- Worklist traversal with a visited set, bounded by fuel. -/
def subtreeAux : Nat → List Category → List Int → List Int → List Int
  | 0, _, visited, _ => visited
  | _ + 1, _, visited, [] => visited
  | fuel + 1, cats, visited, i :: queue =>
    if visited.contains i then subtreeAux fuel cats visited queue
    else subtreeAux fuel cats (visited ++ [i]) (queue ++ childrenOf cats i)

/-- Modelled from the spec: `subtree_ids(root_id)` — the category itself
and all descendants via parent links, by a visited-set traversal; no such
function exists in the source. -/
def specSubtreeIds (cats : List Category) (root : Int) : List Int :=
  subtreeAux ((cats.length + 1) * (cats.length + 1) + 1) cats [] [root]

/-- Modelled from the spec: the roll-up count of a category — published
prompts whose `category_id` lies anywhere in its subtree; no such
computation exists in the source. -/
def specRollupCount (db : Db) (cid : Int) : Nat :=
  (db.prompts.filter (fun p =>
    p.status == "published" && (specSubtreeIds db.cats cid).contains p.category_id)).length

/-! ## Concrete fixtures -/

/-- A root category. -/
def exCatRoot : Category :=
  { id := 1, name := "Root", slug := "root", description := none,
    parent_id := none, sort_order := 1 }

/-- A child category of `exCatRoot`. -/
def exCatChild : Category :=
  { id := 2, name := "Child", slug := "child", description := none,
    parent_id := some 1, sort_order := 2 }

/-- A published prompt filed under the child category. -/
def exP1 : Prompt :=
  { id := 1, title := "P1", body := "b", category_id := 2, subcategory_id := none,
    ai_platforms := none, instructions := none, tags := none,
    status := "published", created_by := none }

/-- A draft prompt filed under the child category. -/
def exP2 : Prompt :=
  { id := 2, title := "P2", body := "b", category_id := 2, subcategory_id := none,
    ai_platforms := none, instructions := none, tags := none,
    status := "draft", created_by := none }

/-- Store with the two-category tree and one published prompt. -/
def exDb : Db :=
  { cats := [exCatRoot, exCatChild], prompts := [exP1], subs := [],
    nextCatId := 3, nextPromptId := 2, nextSubId := 1 }

/-- Store with a published and a draft prompt under the child category. -/
def exDb2 : Db :=
  { cats := [exCatRoot, exCatChild], prompts := [exP1, exP2], subs := [],
    nextCatId := 3, nextPromptId := 3, nextSubId := 1 }

/-- A submission already in the terminal `approved` state. -/
def exSubApproved : Submission :=
  { id := 1, title := "S", body := "b", category_id := some 1,
    subcategory_id := none, ai_platforms := none, instructions := none,
    tags := none, suggested_category_name := none, status := "approved",
    submitted_by := none, reviewer_notes := none, approved_prompt_id := none,
    reviewed_at := none }

/-- Store holding the terminal submission. -/
def exDb4 : Db := { exDb with subs := [exSubApproved] }

/-- A pending submission proposing a category name that already exists. -/
def exSubSuggest : Submission :=
  { exSubApproved with
    id := 2
    status := "pending"
    category_id := none
    suggested_category_name := some "Root Thing" }

/-- Store holding the pending suggestion submission. -/
def exDb3 : Db := { exDb with subs := [exSubSuggest] }

/-- The store after archiving `exP1`. -/
def exDbArch : Db := { exDb with prompts := [{ exP1 with status := "archived" }] }

/-- The submission row created when a numeric category id and a suggested
category name are both supplied: the suggestion is silently dropped. -/
def exSubBoth : Submission :=
  { id := 1, title := "T", body := "B", category_id := some 5,
    subcategory_id := none, ai_platforms := none, instructions := none,
    tags := none, suggested_category_name := none, status := "pending",
    submitted_by := none, reviewer_notes := none, approved_prompt_id := none,
    reviewed_at := none }

/-- The terminal submission after the second (re-)review overwrote it. -/
def exSubRejected : Submission :=
  { exSubApproved with
    status := "rejected"
    reviewer_notes := some "n"
    reviewed_at := some 99 }

/-- The store after re-reviewing the already-approved submission. -/
def exDb4After : Db := { exDb4 with subs := [exSubRejected] }

/-- A one-record seed list exercising stripping, category creation and
prompt insertion. -/
def exSeedItems : List SeedItem :=
  [{ category := " Cat A ", title := "T1", body := "b", status := "published", tags := none }]

/-- The store the seed import produces from `exDb` on `exSeedItems`. -/
def exDbSeeded : Db :=
  { cats := [exCatRoot, exCatChild, seedNewCat exDb "Cat A"]
    prompts := [exP1, { id := 2, title := "T1", body := "b", category_id := 3, subcategory_id := none, ai_platforms := none, instructions := none, tags := none, status := "published", created_by := none }]
    subs := []
    nextCatId := 4
    nextPromptId := 3
    nextSubId := 1 }

/-- Two categories with distinct sort orders, the first already on top. -/
def exCatA : Category :=
  { id := 1, name := "A", slug := "a", description := none,
    parent_id := none, sort_order := 1 }

/-- Second category of the reorder fixture. -/
def exCatB : Category :=
  { id := 2, name := "B", slug := "b", description := none,
    parent_id := none, sort_order := 2 }

/-! ## General lemmas -/

/-- Primary-key lookup: with distinct keys, `find?` on the key of a member
returns exactly that member. -/
theorem find_key_eq {α : Type} (key : α → Int) {l : List α} {a : α}
    (hnd : (l.map key).Nodup) (ha : a ∈ l) :
    l.find? (fun x => key x == key a) = some a := by
  induction l with
  | nil => cases ha
  | cons x xs ih =>
    rcases List.mem_cons.mp ha with h | h
    · subst h
      simp [List.find?]
    · have hne : key x ≠ key a := by
        intro he
        have hxa : key a ∈ xs.map key := List.mem_map_of_mem key h
        rw [← he] at hxa
        exact (List.nodup_cons.mp (by simpa using hnd)).1 hxa
      have : (key x == key a) = false := beq_eq_false_iff_ne.mpr hne
      simp [List.find?, this]
      exact ih (List.nodup_cons.mp (by simpa using hnd)).2 h

/-- Pointwise-equal predicates give the same `find?` result. -/
theorem find?_congr_pred {α : Type} {p q : α → Bool} (l : List α)
    (h : ∀ x, p x = q x) : l.find? p = l.find? q :=
  congrArg l.find? (funext h)

/-- Key-based `find?` commutes with a map that preserves the key. -/
theorem find?_key_map {α : Type} (key : α → Int) (f : α → α)
    (hf : ∀ x, key (f x) = key x) (l : List α) (k : Int) :
    (l.map f).find? (fun x => key x == k) =
      (l.find? (fun x => key x == k)).map f := by
  induction l with
  | nil => rfl
  | cons x xs ih =>
    by_cases h : (key x == k) = true
    · rw [List.map_cons,
        @List.find?_cons_of_pos α (fun x => key x == k) (f x) (xs.map f)
          (by simp only [hf x]; exact h),
        @List.find?_cons_of_pos α (fun x => key x == k) x xs h]
      rfl
    · rw [List.map_cons,
        @List.find?_cons_of_neg α (fun x => key x == k) (f x) (xs.map f)
          (by simp only [hf x]; exact h),
        @List.find?_cons_of_neg α (fun x => key x == k) x xs h]
      exact ih

/-- A successful `find?` is stable under appending rows. -/
theorem find?_append_some {α : Type} {p : α → Bool} {l l2 : List α} {a : α}
    (h : l.find? p = some a) : (l ++ l2).find? p = some a := by
  rw [List.find?_append, h]
  rfl

/-- Members of a Python slice are members of the list. -/
theorem mem_of_mem_pySlice {α : Type} {x : α} {l : List α} {i j : Int}
    (h : x ∈ pySlice l i j) : x ∈ l := by
  unfold pySlice at h
  exact List.mem_of_mem_drop (List.mem_of_mem_take h)

/-- An association-list `lookup` hit is a member. -/
theorem lookup_some_mem {α β : Type} [BEq α] [LawfulBEq α]
    {l : List (α × β)} {k : α} {v : β} (h : l.lookup k = some v) : (k, v) ∈ l := by
  induction l with
  | nil => cases h
  | cons e es ih =>
    rw [List.lookup] at h
    by_cases hk : k == e.1
    · rw [hk] at h
      cases h
      have : k = e.1 := eq_of_beq hk
      subst this
      exact List.mem_cons_self _ _
    · rw [Bool.of_not_eq_true hk] at h
      exact List.mem_cons_of_mem _ (ih h)

/-- In a keyed map over a list with distinct ids, `lookup` of a member's id
returns that member's value. -/
theorem lookup_map_key {α : Type} (key : α → Int) (f : α → Nat) {l : List α} {a : α}
    (hnd : (l.map key).Nodup) (ha : a ∈ l) :
    (l.map (fun x => (key x, f x))).lookup (key a) = some (f a) := by
  induction l with
  | nil => cases ha
  | cons x xs ih =>
    rcases List.mem_cons.mp ha with h | h
    · subst h
      simp [List.lookup]
    · have hne : key a ≠ key x := by
        intro he
        have hxa : key a ∈ xs.map key := List.mem_map_of_mem key h
        rw [he] at hxa
        exact (List.nodup_cons.mp (by simpa using hnd)).1 hxa
      have hb : (key a == key x) = false := beq_eq_false_iff_ne.mpr hne
      simp only [List.map_cons, List.lookup, hb]
      exact ih (List.nodup_cons.mp (by simpa using hnd)).2 h

/-- Restore a string from its character list. -/
theorem mk_toList (s : String) : String.mk s.toList = s := by
  cases s
  rfl

/-- Inserting into the sorted list is a permutation of consing. -/
theorem insertSorted_perm (a : Category) (l : List Category) :
    (insertSorted a l).Perm (a :: l) := by
  induction l with
  | nil => exact List.Perm.refl _
  | cons b bs ih =>
    unfold insertSorted
    by_cases h : b.sort_order < a.sort_order
    · rw [if_pos h]
      exact (ih.cons b).trans (List.Perm.swap a b bs)
    · rw [if_neg h]

/-- The stable sort is a permutation of its input. -/
theorem orderBySort_perm (l : List Category) : (orderBySort l).Perm l := by
  induction l with
  | nil => exact List.Perm.refl _
  | cons x xs ih =>
    exact (insertSorted_perm x (orderBySort xs)).trans (ih.cons x)

/-- A Python slice with stop index 0 is empty. -/
theorem pySlice_stop_zero {α : Type} (l : List α) (i : Int) :
    pySlice l i 0 = [] := by
  unfold pySlice pyIndex
  simp

/-- Every page item of `list_prompts` comes from the materialized match
set. -/
theorem items_subset_matched {db : Db} {q : String} {c : Option Int}
    {pf : Option String} {pg ps : Int} {res : PageResult}
    (h : list_prompts db q c pf pg ps = some res) :
    ∀ x ∈ res.items, x ∈ matchedPrompts db q c pf := by
  unfold list_prompts at h
  by_cases hps : (ps == 0) = true
  · rw [if_pos hps] at h
    cases h
  · rw [if_neg hps] at h
    cases h
    intro x hx
    exact mem_of_mem_pySlice hx

/-! ## Claim C10 -/

/-- C10: the public listing's pagination is only total for positive page
sizes — `page_size = 0` divides by zero in the `totalPages` computation so
the call fails instead of returning a page, and `page = 0` makes the slice
start negative so the returned items are empty even when the match total is
positive; neither parameter is validated at the public interface. -/
theorem C10_pagination (db : Db) (q : String) (c : Option Int)
    (pf : Option String) (page pageSize : Int) :
    (pageSize = 0 → list_prompts db q c pf page pageSize = none) ∧
    (page = 0 → 0 < pageSize → ∀ res,
       list_prompts db q c pf page pageSize = some res →
       res.items = [] ∧ res.total = (matchedPrompts db q c pf).length) := by
  constructor
  · intro h
    subst h
    simp [list_prompts]
  · intro hp hps res hres
    subst hp
    have hne : (pageSize == 0) = false :=
      beq_eq_false_iff_ne.mpr (by omega)
    unfold list_prompts at hres
    rw [if_neg (by simp [hne])] at hres
    cases hres
    constructor
    · have hz : ((0 : Int) - 1) * pageSize + pageSize = 0 := by ring
      rw [hz]
      exact pySlice_stop_zero _ _
    · rfl

/-- C10 witness: on the concrete store the match total is positive, yet
page 0 returns no items, and page size 0 fails. -/
theorem C10_pagination_witness :
    (list_prompts exDb "" none none 1 0 = none) ∧
    (∀ res, list_prompts exDb "" none none 0 20 = some res → res.items = []) ∧
    0 < (matchedPrompts exDb "" none none).length :=
  ⟨(C10_pagination exDb "" none none 1 0).1 rfl,
   fun res h => ((C10_pagination exDb "" none none 0 20).2 rfl (by decide) res h).1,
   by decide⟩

/-! ## Claim C8 -/

/-- C8: archiving a prompt (the admin delete, which only sets
`status = archived`) removes it from the public single read (404) and from
every public listing result, while the row still exists and is visible to
the admin unrestricted read. -/
theorem C8_archive (db : Db) (p : Prompt) (db1 : Db)
    (hnd : (db.prompts.map Prompt.id).Nodup) (hmem : p ∈ db.prompts)
    (harch : delete_prompt db p.id = some db1) :
    get_prompt db1 p.id = none ∧
    (∀ q c pf x, x ∈ matchedPrompts db1 q c pf → x.id ≠ p.id) ∧
    (∀ q c pf pg ps res, list_prompts db1 q c pf pg ps = some res →
       ∀ x ∈ res.items, x.id ≠ p.id) ∧
    (∃ x ∈ admin_prompts db1, x.id = p.id ∧ x.status = "archived") := by
  have hfind : db.prompts.find? (fun x => x.id == p.id) = some p :=
    find_key_eq Prompt.id hnd hmem
  unfold delete_prompt at harch
  rw [hfind] at harch
  cases harch
  have hidf : ∀ x : Prompt,
      ((if x.id == p.id then { x with status := "archived" } else x) : Prompt).id
        = x.id := by
    intro x
    by_cases hx : (x.id == p.id) = true <;> simp [hx]
  have hmain : ∀ q c pf x, x ∈ matchedPrompts
      { db with prompts := db.prompts.map (fun x =>
          if x.id == p.id then { x with status := "archived" } else x) } q c pf →
      x.id ≠ p.id := by
    intro q c pf x hx hxp
    have hx2 := (List.mem_filter.mp hx).1
    have hpub : (x.status == "published") = true := by
      have := (List.mem_filter.mp hx).2
      simp only [Bool.and_eq_true] at this
      exact this.1.1.1
    simp only [List.mem_map] at hx2
    obtain ⟨y, hy, hyx⟩ := hx2
    have hyid : y.id = p.id := by
      rw [← hidf y, hyx, hxp]
    have hyp : y = p := List.inj_on_of_nodup_map hnd hy hmem hyid
    subst hyp
    rw [if_pos (by simp)] at hyx
    rw [← hyx] at hpub
    simp at hpub
  refine ⟨?_, hmain, ?_, ?_⟩
  · unfold get_prompt
    rw [find?_key_map Prompt.id _ hidf db.prompts p.id, hfind]
    simp
  · intro q c pf pg ps res hres x hx
    exact hmain q c pf x (items_subset_matched hres x hx)
  · refine ⟨{ p with status := "archived" }, ?_, by simp, rfl⟩
    simp only [admin_prompts, List.mem_map]
    exact ⟨p, hmem, by rw [if_pos (by simp)]⟩

/-- C8 witness at the concrete store. -/
theorem C8_archive_witness :
    get_prompt exDbArch exP1.id = none ∧
    (∃ x ∈ admin_prompts exDbArch, x.id = exP1.id ∧ x.status = "archived") := by
  have h := C8_archive exDb exP1 exDbArch (by decide) (by decide) (by decide)
  exact ⟨h.1, h.2.2.2⟩

/-! ## Claim C2 -/

/-- C2 counterexample: on the concrete store the admin page reports 0 for
the root category whose subtree holds one published prompt, and reports 2
for the child category that holds one published and one draft prompt,
while the spec's roll-up of published prompts gives 1 for both. -/
theorem C2_counterexample :
    (admin_category_counts exDb2).lookup 1 = some 0 ∧
    specRollupCount exDb2 1 = 1 ∧
    (admin_category_counts exDb2).lookup 2 = some 2 ∧
    specRollupCount exDb2 2 = 1 := by decide

/-- C2 amended: the count the admin categories page reports for a category
is the number of prompt rows of any status whose `category_id` equals that
category's id exactly; no roll-up over descendants and no status filter is
applied. -/
theorem C2_counts (db : Db) (c : Category)
    (hnd : (db.cats.map Category.id).Nodup) (hc : c ∈ db.cats) :
    (admin_category_counts db).lookup c.id =
      some ((db.prompts.filter (fun p => p.category_id == c.id)).length) := by
  unfold admin_category_counts
  have hperm := orderBySort_perm db.cats
  have hnd2 : ((orderBySort db.cats).map Category.id).Nodup :=
    ((hperm.map Category.id).nodup_iff).mpr (by simpa using hnd)
  have hc2 : c ∈ orderBySort db.cats := hperm.mem_iff.mpr hc
  exact lookup_map_key Category.id
    (fun x => (db.prompts.filter (fun p => p.category_id == x.id)).length)
    hnd2 hc2

/-- C2 witness: the child category's reported count is the raw per-id
count 2. -/
theorem C2_counts_witness :
    (admin_category_counts exDb2).lookup exCatChild.id = some 2 := by
  have h := C2_counts exDb2 exCatChild (by decide) (by decide)
  rw [h]
  decide

/-! ## Claim C4 -/

/-- C4 counterexample: re-reviewing the already-approved submission does
not fail with a Conflict — the call succeeds and overwrites the status,
reviewer notes and review time. -/
theorem C4_counterexample :
    exSubApproved.status = "approved" ∧
    review_submission exDb4 1 "rejected" "n" none none none 99 =
      Except.ok exDb4After ∧
    exSubRejected.status = "rejected" :=
  ⟨rfl, rfl, rfl⟩

/-- C4 amended: the review operation never inspects the current submission
status; any existing submission — pending or already terminal — is
re-reviewable, and a `rejected` decision always succeeds, overwriting
status, reviewer notes and review time. -/
theorem C4_rereview (db : Db) (sub : Submission) (notes : String) (now : Int)
    (hnd : (db.subs.map Submission.id).Nodup) (hmem : sub ∈ db.subs) :
    review_submission db sub.id "rejected" notes none none none now =
      Except.ok { db with subs := db.subs.map (fun s =>
        if s.id == sub.id then { sub with status := "rejected", reviewer_notes := some notes, reviewed_at := some now } else s) } := by
  unfold review_submission
  rw [find_key_eq Submission.id hnd hmem]
  rfl

/-- C4 witness: the amended theorem applied to the concrete
already-approved submission. -/
theorem C4_rereview_witness :
    review_submission exDb4 exSubApproved.id "rejected" "n" none none none 99 =
      Except.ok exDb4After := by
  rw [C4_rereview exDb4 exSubApproved "n" 99 (by decide) (by decide)]
  rfl

/-! ## Claim C5 -/

/-- C5 counterexample: a request supplying both a numeric category id and a
suggested category name does not fail — the submission row is created with
the numeric category and the suggestion silently dropped. -/
theorem C5_counterexample :
    create_submission exDb "T" "B" "5" none [] none (some "Extra") none none =
      Except.ok ({ exDb with subs := [exSubBoth], nextSubId := 2 }, 1) ∧
    exSubBoth.category_id = some 5 ∧
    exSubBoth.suggested_category_name = none :=
  ⟨rfl, rfl, rfl⟩

/-- C5 amended: a numeric `category_id` always wins and nulls the suggested
name without error; the only rejected combinations are the literal "new"
with a blank or missing suggestion (no row is created), and a non-numeric
id; "new" with a non-blank suggestion stores the suggestion with no
category id. -/
theorem C5_category_choice (db : Db) (title body cid : String) (sc : Option Int)
    (pc : List String) (ai : Option String) (sugg : Option String)
    (instr tg : Option String) :
    (cid = "new" → (∀ s, sugg = some s → pyStrip s = "") →
       create_submission db title body cid sc pc ai sugg instr tg =
         Except.error HErr.badRequest) ∧
    (∀ n : Int, cid ≠ "new" → pyInt cid = some n →
       ∃ db1 i, create_submission db title body cid sc pc ai sugg instr tg =
           Except.ok (db1, i) ∧
         ∃ sub : Submission, db1.subs = db.subs ++ [sub] ∧
           sub.category_id = some n ∧ sub.suggested_category_name = none) ∧
    (∀ s, cid = "new" → sugg = some s → pyStrip s ≠ "" →
       ∃ db1 i, create_submission db title body cid sc pc ai sugg instr tg =
           Except.ok (db1, i) ∧
         ∃ sub : Submission, db1.subs = db.subs ++ [sub] ∧
           sub.category_id = none ∧ sub.suggested_category_name = some s) := by
  refine ⟨?_, ?_, ?_⟩
  · intro hcid hsugg
    subst hcid
    cases sugg with
    | none => rfl
    | some s =>
      have hs : (pyStrip s == "") = true := by
        rw [hsugg s rfl]
        rfl
      unfold create_submission
      simp only [beq_self_eq_true, if_true, hs]
  · intro n hne hparse
    have h1 : (cid == "new") = false := beq_eq_false_iff_ne.mpr hne
    unfold create_submission
    simp only [h1, Bool.false_eq_true, if_false, hparse]
    exact ⟨_, _, rfl, _, rfl, rfl, rfl⟩
  · intro s hcid hs hts
    subst hcid
    subst hs
    have hs2 : (pyStrip s == "") = false := by
      simpa using hts
    unfold create_submission
    simp only [beq_self_eq_true, if_true, hs2, Bool.false_eq_true, if_false]
    exact ⟨_, _, rfl, _, rfl, rfl, rfl⟩

/-- C5 witness: the numeric-id branch at a concrete input carrying both a
numeric id and a suggested name. -/
theorem C5_category_choice_witness :
    ∃ db1 i, create_submission exDb "T" "B" "5" none [] none (some "Extra")
        none none = Except.ok (db1, i) ∧
      ∃ sub : Submission, db1.subs = exDb.subs ++ [sub] ∧
        sub.category_id = some 5 ∧ sub.suggested_category_name = none :=
  (C5_category_choice exDb "T" "B" "5" none [] none (some "Extra")
    none none).2.1 5 (by decide) (by decide)

/-! ## Reorder query characterizations -/

/-- When `bestPrev` finds nothing, no row sorts strictly below `c`. -/
theorem bestPrev_none (c : Category) (l : List Category)
    (h : bestPrev c l = none) : ∀ x ∈ l, ¬ x.sort_order < c.sort_order := by
  induction l with
  | nil => intro x hx; cases hx
  | cons x xs ih =>
    unfold bestPrev at h
    cases hx : bestPrev c xs with
    | none =>
      rw [hx] at h
      dsimp only at h
      by_cases hlt : x.sort_order < c.sort_order
      · rw [if_pos hlt] at h; cases h
      · rw [if_neg hlt] at h
        intro y hy
        rcases List.mem_cons.mp hy with rfl | hy2
        · exact hlt
        · exact ih hx y hy2
    | some b =>
      rw [hx] at h
      dsimp only at h
      split at h <;> simp at h

/-- `bestPrev` returns a member strictly below `c` that is maximal among
the rows strictly below `c`. -/
theorem bestPrev_spec (c : Category) (l : List Category) (p : Category)
    (h : bestPrev c l = some p) :
    p ∈ l ∧ p.sort_order < c.sort_order ∧
      ∀ x ∈ l, x.sort_order < c.sort_order → x.sort_order ≤ p.sort_order := by
  induction l generalizing p with
  | nil => cases h
  | cons x xs ih =>
    unfold bestPrev at h
    cases hx : bestPrev c xs with
    | none =>
      rw [hx] at h
      dsimp only at h
      by_cases hlt : x.sort_order < c.sort_order
      · rw [if_pos hlt] at h
        cases h
        refine ⟨List.mem_cons_self _ _, hlt, ?_⟩
        intro y hy hylt
        rcases List.mem_cons.mp hy with rfl | hy2
        · exact le_refl _
        · exact absurd hylt (bestPrev_none c xs hx y hy2)
      · rw [if_neg hlt] at h; cases h
    | some b =>
      rw [hx] at h
      dsimp only at h
      obtain ⟨hbm, hbl, hbx⟩ := ih b hx
      by_cases hcond :
          (x.sort_order < c.sort_order && b.sort_order ≤ x.sort_order) = true
      · rw [if_pos hcond] at h
        cases h
        simp only [Bool.and_eq_true, decide_eq_true_eq] at hcond
        refine ⟨List.mem_cons_self _ _, hcond.1, ?_⟩
        intro y hy hylt
        rcases List.mem_cons.mp hy with rfl | hy2
        · exact le_refl _
        · exact le_trans (hbx y hy2 hylt) hcond.2
      · rw [if_neg hcond] at h
        cases h
        simp only [Bool.and_eq_true, decide_eq_true_eq, not_and, not_le] at hcond
        refine ⟨List.mem_cons_of_mem _ hbm, hbl, ?_⟩
        intro y hy hylt
        rcases List.mem_cons.mp hy with rfl | hy2
        · exact le_of_lt (hcond hylt)
        · exact hbx y hy2 hylt

/-- When `bestNext` finds nothing, no row sorts strictly above `c`. -/
theorem bestNext_none (c : Category) (l : List Category)
    (h : bestNext c l = none) : ∀ x ∈ l, ¬ c.sort_order < x.sort_order := by
  induction l with
  | nil => intro x hx; cases hx
  | cons x xs ih =>
    unfold bestNext at h
    cases hx : bestNext c xs with
    | none =>
      rw [hx] at h
      dsimp only at h
      by_cases hlt : c.sort_order < x.sort_order
      · rw [if_pos hlt] at h; cases h
      · rw [if_neg hlt] at h
        intro y hy
        rcases List.mem_cons.mp hy with rfl | hy2
        · exact hlt
        · exact ih hx y hy2
    | some b =>
      rw [hx] at h
      dsimp only at h
      split at h <;> simp at h

/-- `bestNext` returns a member strictly above `c` that is minimal among
the rows strictly above `c`. -/
theorem bestNext_spec (c : Category) (l : List Category) (p : Category)
    (h : bestNext c l = some p) :
    p ∈ l ∧ c.sort_order < p.sort_order ∧
      ∀ x ∈ l, c.sort_order < x.sort_order → p.sort_order ≤ x.sort_order := by
  induction l generalizing p with
  | nil => cases h
  | cons x xs ih =>
    unfold bestNext at h
    cases hx : bestNext c xs with
    | none =>
      rw [hx] at h
      dsimp only at h
      by_cases hlt : c.sort_order < x.sort_order
      · rw [if_pos hlt] at h
        cases h
        refine ⟨List.mem_cons_self _ _, hlt, ?_⟩
        intro y hy hylt
        rcases List.mem_cons.mp hy with rfl | hy2
        · exact le_refl _
        · exact absurd hylt (bestNext_none c xs hx y hy2)
      · rw [if_neg hlt] at h; cases h
    | some b =>
      rw [hx] at h
      dsimp only at h
      obtain ⟨hbm, hbl, hbx⟩ := ih b hx
      by_cases hcond :
          (c.sort_order < x.sort_order && x.sort_order ≤ b.sort_order) = true
      · rw [if_pos hcond] at h
        cases h
        simp only [Bool.and_eq_true, decide_eq_true_eq] at hcond
        refine ⟨List.mem_cons_self _ _, hcond.1, ?_⟩
        intro y hy hylt
        rcases List.mem_cons.mp hy with rfl | hy2
        · exact le_refl _
        · exact le_trans hcond.2 (hbx y hy2 hylt)
      · rw [if_neg hcond] at h
        cases h
        simp only [Bool.and_eq_true, decide_eq_true_eq, not_and, not_le] at hcond
        refine ⟨List.mem_cons_of_mem _ hbm, hbl, ?_⟩
        intro y hy hylt
        rcases List.mem_cons.mp hy with rfl | hy2
        · exact le_of_lt (hcond hylt)
        · exact hbx y hy2 hylt

/-! ## Claim C7 -/

/-- C7 counterexample: on the first category, `move_up` is an informational
no-op but the following `move_down` still swaps, so the round trip does not
restore the original ordering. -/
theorem C7_counterexample :
    (move_category_up [exCatA, exCatB] 1).bind
        (fun l => move_category_down l 1) =
      some [{ exCatA with sort_order := 2 }, { exCatB with sort_order := 1 }] ∧
    ¬ [{ exCatA with sort_order := 2 }, { exCatB with sort_order := 1 }]
        = [exCatA, exCatB] := by
  constructor
  · rfl
  · decide

/-- C7 amended: when all `sort_order` values are pairwise distinct and the
category is not already first, `move_up` followed by `move_down` restores
the original list exactly; when the category is already first, `move_up`
alone is an informational no-op returning the unchanged list (so the round
trip starting from the first category instead moves it down one place). -/
theorem C7_move_roundtrip (cats : List Category) (c : Category)
    (hid : (cats.map Category.id).Nodup)
    (hsort : (cats.map Category.sort_order).Nodup)
    (hc : c ∈ cats) :
    ((∃ x ∈ cats, x.sort_order < c.sort_order) →
       (move_category_up cats c.id).bind
         (fun l => move_category_down l c.id) = some cats) ∧
    ((∀ x ∈ cats, ¬ x.sort_order < c.sort_order) →
       move_category_up cats c.id = some cats) := by
  have hfindc : cats.find? (fun x => x.id == c.id) = some c :=
    find_key_eq Category.id hid hc
  constructor
  · rintro ⟨w, hw, hwlt⟩
    unfold move_category_up
    rw [hfindc]
    dsimp only
    cases hbp : bestPrev c cats with
    | none => exact absurd hwlt (bestPrev_none c cats hbp w hw)
    | some p =>
      obtain ⟨hpm, hpl, hpmax⟩ := bestPrev_spec c cats p hbp
      have hpc : p ≠ c := fun he => absurd hpl (by rw [he]; exact lt_irrefl _)
      have hpcid : p.id ≠ c.id :=
        fun he => hpc (List.inj_on_of_nodup_map hid hpm hc he)
      have hpcidb : (p.id == c.id) = false := beq_eq_false_iff_ne.mpr hpcid
      dsimp only
      show move_category_down (swapSorts cats c p) c.id = some cats
      have hpres : ∀ x : Category,
          Category.id (if x.id == c.id then { x with sort_order := p.sort_order }
            else if x.id == p.id then { x with sort_order := c.sort_order }
            else x) = Category.id x := by
        intro x
        by_cases h1 : (x.id == c.id) = true
        · simp [h1]
        · by_cases h2 : (x.id == p.id) = true <;>
            simp [Bool.of_not_eq_true h1, h2]
      have hfind2 : (swapSorts cats c p).find? (fun x => x.id == c.id) =
          some { c with sort_order := p.sort_order } := by
        unfold swapSorts
        rw [find?_key_map Category.id _ hpres cats c.id, hfindc]
        simp
      unfold move_category_down
      rw [hfind2]
      dsimp only
      have hp'mem : ({ p with sort_order := c.sort_order } : Category)
          ∈ swapSorts cats c p := by
        unfold swapSorts
        exact List.mem_map.mpr ⟨p, hpm, by simp [hpcidb]⟩
      have hgt : ({ c with sort_order := p.sort_order } : Category).sort_order <
          ({ p with sort_order := c.sort_order } : Category).sort_order := hpl
      cases hbn : bestNext { c with sort_order := p.sort_order }
          (swapSorts cats c p) with
      | none =>
        exact absurd hgt (bestNext_none _ _ hbn _ hp'mem)
      | some q =>
        dsimp only
        obtain ⟨hqm, hql, hqmin⟩ := bestNext_spec _ _ q hbn
        have hq_le : q.sort_order ≤ c.sort_order :=
          hqmin { p with sort_order := c.sort_order } hp'mem hgt
        have hq_eq : q = { p with sort_order := c.sort_order } := by
          obtain ⟨y, hy, hfy⟩ := List.mem_map.mp hqm
          by_cases hyc : (y.id == c.id) = true
          · exfalso
            have hyeq : y = c :=
              List.inj_on_of_nodup_map hid hy hc (by simpa using hyc)
            rw [if_pos hyc] at hfy
            rw [hyeq] at hfy
            rw [← hfy] at hql
            exact absurd hql (lt_irrefl _)
          · by_cases hyp : (y.id == p.id) = true
            · have hyeq : y = p :=
                List.inj_on_of_nodup_map hid hy hpm (by simpa using hyp)
              rw [if_neg (by simp [hyc]), if_pos hyp] at hfy
              rw [hyeq] at hfy
              exact hfy.symm
            · exfalso
              rw [if_neg (by simp [hyc]), if_neg (by simp [hyp])] at hfy
              have hyge : ¬ y.sort_order < c.sort_order := by
                intro hlt2
                have hle : y.sort_order ≤ p.sort_order := hpmax y hy hlt2
                have hgt2 : p.sort_order < y.sort_order := by
                  rw [hfy]
                  exact hql
                omega
              have hqc : y.sort_order = c.sort_order := by
                have h1 : y.sort_order ≤ c.sort_order := by
                  rw [hfy]
                  exact hq_le
                exact le_antisymm h1 (not_lt.mp hyge)
              have hyceq : y = c := List.inj_on_of_nodup_map hsort hy hc hqc
              rw [hyceq] at hyc
              simp at hyc
        rw [hq_eq]
        have hmapid : swapSorts (swapSorts cats c p)
            { c with sort_order := p.sort_order }
            { p with sort_order := c.sort_order } = cats := by
          unfold swapSorts
          rw [List.map_map]
          have : ∀ x ∈ cats,
              ((fun x : Category =>
                  if x.id == ({ c with sort_order := p.sort_order } : Category).id
                  then { x with sort_order :=
                    ({ p with sort_order := c.sort_order } : Category).sort_order }
                  else if x.id ==
                      ({ p with sort_order := c.sort_order } : Category).id
                  then { x with sort_order :=
                    ({ c with sort_order := p.sort_order } : Category).sort_order }
                  else x) ∘
                (fun x : Category =>
                  if x.id == c.id then { x with sort_order := p.sort_order }
                  else if x.id == p.id then { x with sort_order := c.sort_order }
                  else x)) x = x := by
            intro x hx
            by_cases h1 : (x.id == c.id) = true
            · have hxc : x = c :=
                List.inj_on_of_nodup_map hid hx hc (by simpa using h1)
              subst hxc
              simp
            · by_cases h2 : (x.id == p.id) = true
              · have hxp : x = p :=
                  List.inj_on_of_nodup_map hid hx hpm (by simpa using h2)
                subst hxp
                simp [hpcid, hpcidb]
              · simp [Function.comp, h1, h2, Bool.of_not_eq_true h1,
                  Bool.of_not_eq_true h2]
          rw [List.map_congr_left this]
          simp
        rw [hmapid]
  · intro hall
    unfold move_category_up
    rw [hfindc]
    dsimp only
    cases hbp : bestPrev c cats with
    | none => rfl
    | some p =>
      obtain ⟨hpm, hpl, _⟩ := bestPrev_spec c cats p hbp
      exact absurd hpl (hall p hpm)

/-- C7 witness: the round trip on the second category of the concrete pair
restores the list. -/
theorem C7_move_roundtrip_witness :
    (move_category_up [exCatA, exCatB] exCatB.id).bind
      (fun l => move_category_down l exCatB.id) = some [exCatA, exCatB] :=
  (C7_move_roundtrip [exCatA, exCatB] exCatB (by decide) (by decide)
    (by decide)).1 ⟨exCatA, by decide, by decide⟩

/-! ## Claim C1 -/

/-- C1 counterexample: a published prompt whose category lies strictly
inside the filter category's subtree is not returned by the public listing
— the category filter is a direct id equality, not a subtree test. -/
theorem C1_counterexample :
    (list_prompts exDb "" (some 1) none 1 20).map PageResult.items = some [] ∧
    exP1 ∈ exDb.prompts ∧
    exP1.status = "published" ∧
    exP1.category_id ∈ specSubtreeIds exDb.cats 1 := by
  refine ⟨rfl, ?_, rfl, ?_⟩ <;> decide

/-- C1 amended: with a truthy category filter, the pre-pagination match
set of the public listing contains a prompt exactly when it is published,
matches the text query, and its `category_id` or `subcategory_id` equals
the filter id directly; the subtree is never consulted. -/
theorem C1_category_filter (db : Db) (q : String) (c : Int) (p : Prompt)
    (hc : c ≠ 0) :
    p ∈ matchedPrompts db q (some c) none ↔
      p ∈ db.prompts ∧ p.status = "published" ∧
        (q = "" ∨ matchesQuery q p = true) ∧
        (p.category_id = c ∨ p.subcategory_id = some c) := by
  have hc2 : (c == 0) = false := beq_eq_false_iff_ne.mpr hc
  unfold matchedPrompts matchesCategory matchesPlatform
  rw [List.mem_filter]
  simp [hc2, String.isEmpty_iff, and_assoc]

/-- C1 witness: the prompt is returned when filtering by its own category
id. -/
theorem C1_category_filter_witness :
    exP1 ∈ matchedPrompts exDb "" (some 2) none :=
  (C1_category_filter exDb "" 2 exP1 (by decide)).mpr
    ⟨by decide, rfl, Or.inl rfl, Or.inl rfl⟩

/-! ## Claim C3 -/

/-- C3 counterexample: the admin category-creation endpoint performs no
dedupe — inserting a name whose name and slug already exist violates the
unique constraints and the call errors instead of returning the existing
category's id. -/
theorem C3_counterexample :
    create_category exDb "Root" "" none = Except.error HErr.internalErr := rfl

/-- C3 amended: only the moderation-time resolution path dedupes — when
the proposed name (stripped) matches an existing category by exact name or
by computed slug, approval reuses that category's id, inserts no category
row, and succeeds; the admin endpoint instead inserts unconditionally and
fails on a duplicate. -/
theorem C3_moderation_dedupe (db : Db) (sub : Submission) (ex : Category)
    (raw notes : String) (now : Int)
    (hnd : (db.subs.map Submission.id).Nodup) (hmem : sub ∈ db.subs)
    (hsugg : pyTruthyS sub.suggested_category_name = true)
    (hname : (pyStrip raw == "") = false)
    (hfind : db.cats.find? (fun cc =>
      cc.name == pyStrip raw || cc.slug == slugify (pyStrip raw)) = some ex)
    (hex : (ex.id == 0) = false) :
    ∃ db1, review_submission db sub.id "approved" notes (some "new") none
        (some raw) now = Except.ok db1 ∧
      db1.cats = db.cats ∧
      ∃ p : Prompt, db1.prompts = db.prompts ++ [p] ∧
        p.category_id = ex.id ∧ p.status = "published" := by
  have hex2 : ¬ ex.id = 0 := by simpa using hex
  unfold review_submission resolveCategory
  rw [find_key_eq Submission.id hnd hmem]
  simp +decide [hsugg, hname, hfind, hex2]

/-- C3 witness: approving the concrete pending suggestion with a new-name
resolution that strips to the existing category name reuses it. -/
theorem C3_moderation_dedupe_witness :
    ∃ db1, review_submission exDb3 exSubSuggest.id "approved" "" (some "new")
        none (some "  Root  ") 7 = Except.ok db1 ∧
      db1.cats = exDb3.cats ∧
      ∃ p : Prompt, db1.prompts = exDb3.prompts ++ [p] ∧
        p.category_id = exCatRoot.id ∧ p.status = "published" :=
  C3_moderation_dedupe exDb3 exSubSuggest exCatRoot "  Root  " "" 7
    (by decide) (by decide) (by decide) (by decide) (by decide) (by decide)

/-! ## Seed-import invariants -/

/-- Extension is reflexive. -/
theorem dbExtends_refl (d : Db) : dbExtends d d :=
  ⟨⟨[], by simp⟩, ⟨[], by simp⟩⟩

/-- Extension is transitive. -/
theorem dbExtends_trans {a b c : Db} (h1 : dbExtends a b) (h2 : dbExtends b c) :
    dbExtends a c := by
  obtain ⟨⟨l1, hc1⟩, ⟨l2, hp1⟩⟩ := h1
  obtain ⟨⟨l3, hc2⟩, ⟨l4, hp2⟩⟩ := h2
  exact ⟨⟨l1 ++ l3, by rw [hc2, hc1, List.append_assoc]⟩,
         ⟨l2 ++ l4, by rw [hp2, hp1, List.append_assoc]⟩⟩

/-- Coverage of a seed record survives appending rows. -/
theorem seedCovers_mono {d1 d2 : Db} {it : SeedItem}
    (hext : dbExtends d1 d2) (h : seedCovers d1 it) : seedCovers d2 it := by
  rcases h with h | ⟨cat, hfind, p, hp, ht, hcid⟩
  · exact Or.inl h
  · obtain ⟨⟨lc, hcats⟩, ⟨lp, hprompts⟩⟩ := hext
    refine Or.inr ⟨cat, ?_, p, ?_, ht, hcid⟩
    · rw [hcats]
      exact find?_append_some hfind
    · rw [hprompts]
      exact List.mem_append_left _ hp

/-- The cache invariant survives appending rows. -/
theorem seedCacheOk_mono {d1 d2 : Db} {cache : List (String × Category)}
    (hext : dbExtends d1 d2) (h : seedCacheOk d1 cache) : seedCacheOk d2 cache := by
  intro n cat hm
  obtain ⟨⟨lc, hcats⟩, _⟩ := hext
  rw [hcats]
  exact find?_append_some (h n cat hm)

/-- One successful seed step only appends, keeps the cache canonical, and
leaves its own record covered. -/
theorem seedStep_main (db : Db) (cache : List (String × Category))
    (it : SeedItem) (st1 : Db × List (String × Category))
    (hok : seedCacheOk db cache)
    (hstep : seedStep (db, cache) it = Except.ok st1) :
    dbExtends db st1.1 ∧ seedCacheOk st1.1 st1.2 ∧ seedCovers st1.1 it := by
  unfold seedStep at hstep
  by_cases hcn : (pyStrip it.category == "") = true
  · rw [if_pos hcn] at hstep
    injection hstep with h1
    subst h1
    exact ⟨dbExtends_refl db, hok, Or.inl (by simpa using hcn)⟩
  · rw [if_neg hcn] at hstep
    cases hcl : cache.lookup (pyStrip it.category) with
    | some cat =>
      rw [hcl] at hstep
      dsimp only at hstep
      have hfind : db.cats.find? (fun c => c.name == pyStrip it.category)
          = some cat := hok _ _ (lookup_some_mem hcl)
      cases hpf : db.prompts.find?
          (fun p => p.title == it.title && p.category_id == cat.id) with
      | some pr =>
        rw [hpf] at hstep
        injection hstep with h1
        subst h1
        have hprm := List.mem_of_find?_eq_some hpf
        have hpred := List.find?_some hpf
        simp only [Bool.and_eq_true, beq_iff_eq] at hpred
        exact ⟨dbExtends_refl db, hok,
          Or.inr ⟨cat, hfind, pr, hprm, hpred.1, hpred.2⟩⟩
      | none =>
        rw [hpf] at hstep
        injection hstep with h1
        subst h1
        refine ⟨⟨⟨[], by simp⟩, ⟨[_], rfl⟩⟩, ?_, ?_⟩
        · intro n cat2 hm
          exact hok n cat2 hm
        · exact Or.inr ⟨cat, hfind, _,
            List.mem_append_right _ (List.mem_singleton.mpr rfl), rfl, rfl⟩
    | none =>
      rw [hcl] at hstep
      dsimp only at hstep
      cases hdf : db.cats.find? (fun c => c.name == pyStrip it.category) with
      | some ex =>
        rw [hdf] at hstep
        dsimp only at hstep
        have hok2 : seedCacheOk db (cache ++ [(pyStrip it.category, ex)]) := by
          intro n cat2 hm
          rcases List.mem_append.mp hm with hm1 | hm2
          · exact hok n cat2 hm1
          · rcases List.mem_singleton.mp hm2 with heq
            cases heq
            exact hdf
        cases hpf : db.prompts.find?
            (fun p => p.title == it.title && p.category_id == ex.id) with
        | some pr =>
          rw [hpf] at hstep
          injection hstep with h1
          subst h1
          have hprm := List.mem_of_find?_eq_some hpf
          have hpred := List.find?_some hpf
          simp only [Bool.and_eq_true, beq_iff_eq] at hpred
          exact ⟨dbExtends_refl db, hok2,
            Or.inr ⟨ex, hdf, pr, hprm, hpred.1, hpred.2⟩⟩
        | none =>
          rw [hpf] at hstep
          injection hstep with h1
          subst h1
          refine ⟨⟨⟨[], by simp⟩, ⟨[_], rfl⟩⟩, ?_, ?_⟩
          · intro n cat2 hm
            exact hok2 n cat2 hm
          · exact Or.inr ⟨ex, hdf, _,
              List.mem_append_right _ (List.mem_singleton.mpr rfl), rfl, rfl⟩
      | none =>
        rw [hdf] at hstep
        dsimp only at hstep
        by_cases han : (db.cats.any (fun c => c.name == pyStrip it.category
            || c.slug == slugify (pyStrip it.category))) = true
        · rw [if_pos han] at hstep
          dsimp only at hstep
          exact Except.noConfusion hstep
        · rw [if_neg han] at hstep
          dsimp only at hstep
          have hfind1 : (seedCatInsert db (pyStrip it.category)).cats.find?
              (fun c => c.name == pyStrip it.category)
              = some (seedNewCat db (pyStrip it.category)) := by
            unfold seedCatInsert
            dsimp only
            rw [List.find?_append, hdf]
            simp [List.find?, seedNewCat]
          have hext1 : dbExtends db (seedCatInsert db (pyStrip it.category)) :=
            ⟨⟨[seedNewCat db (pyStrip it.category)], rfl⟩,
             ⟨[], by simp [seedCatInsert]⟩⟩
          have hok1 : seedCacheOk (seedCatInsert db (pyStrip it.category))
              (cache ++ [(pyStrip it.category,
                seedNewCat db (pyStrip it.category))]) := by
            intro n cat2 hm
            rcases List.mem_append.mp hm with hm1 | hm2
            · exact find?_append_some (hok n cat2 hm1)
            · rcases List.mem_singleton.mp hm2 with heq
              cases heq
              exact hfind1
          cases hpf : (seedCatInsert db (pyStrip it.category)).prompts.find?
              (fun p => p.title == it.title &&
                p.category_id == (seedNewCat db (pyStrip it.category)).id) with
          | some pr =>
            rw [hpf] at hstep
            injection hstep with h1
            subst h1
            have hprm := List.mem_of_find?_eq_some hpf
            have hpred := List.find?_some hpf
            simp only [Bool.and_eq_true, beq_iff_eq] at hpred
            exact ⟨hext1, hok1,
              Or.inr ⟨_, hfind1, pr, hprm, hpred.1, hpred.2⟩⟩
          | none =>
            rw [hpf] at hstep
            injection hstep with h1
            subst h1
            refine ⟨dbExtends_trans hext1 ⟨⟨[], by simp⟩, ⟨[_], rfl⟩⟩, ?_, ?_⟩
            · intro n cat2 hm
              exact hok1 n cat2 hm
            · exact Or.inr ⟨_, hfind1, _,
                List.mem_append_right _ (List.mem_singleton.mpr rfl), rfl, rfl⟩

/-- A completed import run only appends and leaves every processed record
covered by the final store. -/
theorem seed_run_covers (items : List SeedItem) :
    ∀ (db : Db) (cache : List (String × Category)) (dbF : Db),
    seedCacheOk db cache → seedRun db cache items = Except.ok dbF →
    dbExtends db dbF ∧ ∀ it ∈ items, seedCovers dbF it := by
  induction items with
  | nil =>
    intro db cache dbF _ hrun
    injection hrun with h1
    subst h1
    exact ⟨dbExtends_refl db, by intro it h; cases h⟩
  | cons it its ih =>
    intro db cache dbF hok hrun
    unfold seedRun at hrun
    cases hs : seedStep (db, cache) it with
    | error e =>
      rw [hs] at hrun
      exact Except.noConfusion hrun
    | ok st1 =>
      rw [hs] at hrun
      dsimp only at hrun
      obtain ⟨hext1, hok1, hcov1⟩ := seedStep_main db cache it st1 hok hs
      obtain ⟨hext2, hcov2⟩ := ih st1.1 st1.2 dbF hok1 hrun
      refine ⟨dbExtends_trans hext1 hext2, ?_⟩
      intro x hx
      rcases List.mem_cons.mp hx with rfl | hx2
      · exact seedCovers_mono hext2 hcov1
      · exact hcov2 x hx2

/-- One seed step on a covered record succeeds without changing the store
and keeps the cache canonical. -/
theorem seedStep_noop (db : Db) (cache : List (String × Category))
    (it : SeedItem) (hok : seedCacheOk db cache) (hcov : seedCovers db it) :
    ∃ cache1, seedStep (db, cache) it = Except.ok (db, cache1) ∧
      seedCacheOk db cache1 := by
  by_cases hcn : (pyStrip it.category == "") = true
  · refine ⟨cache, ?_, hok⟩
    unfold seedStep
    rw [if_pos hcn]
  · rcases hcov with hblank | ⟨cat, hfind, p, hp, ht, hcid⟩
    · exact absurd (by simpa using hblank) hcn
    cases hcl : cache.lookup (pyStrip it.category) with
    | some cat2 =>
      have h2 : db.cats.find? (fun c => c.name == pyStrip it.category)
          = some cat2 := hok _ _ (lookup_some_mem hcl)
      have hcat : cat2 = cat := by
        rw [hfind] at h2
        exact (Option.some.inj h2).symm
      subst hcat
      have hps : (db.prompts.find? (fun q =>
          q.title == it.title && q.category_id == cat2.id)).isSome :=
        List.find?_isSome.mpr ⟨p, hp, by simp [ht, hcid]⟩
      obtain ⟨pr, hpr⟩ := Option.isSome_iff_exists.mp hps
      refine ⟨cache, ?_, hok⟩
      unfold seedStep
      rw [if_neg hcn, hcl]
      dsimp only
      rw [hpr]
    | none =>
      have hok2 : seedCacheOk db (cache ++ [(pyStrip it.category, cat)]) := by
        intro n cat3 hm
        rcases List.mem_append.mp hm with hm1 | hm2
        · exact hok n cat3 hm1
        · rcases List.mem_singleton.mp hm2 with heq
          cases heq
          exact hfind
      have hps : (db.prompts.find? (fun q =>
          q.title == it.title && q.category_id == cat.id)).isSome :=
        List.find?_isSome.mpr ⟨p, hp, by simp [ht, hcid]⟩
      obtain ⟨pr, hpr⟩ := Option.isSome_iff_exists.mp hps
      refine ⟨cache ++ [(pyStrip it.category, cat)], ?_, hok2⟩
      unfold seedStep
      rw [if_neg hcn, hcl]
      dsimp only
      rw [hfind]
      dsimp only
      rw [hpr]

/-- An import run over covered records completes and leaves the store
unchanged. -/
theorem seed_run_noop (items : List SeedItem) :
    ∀ (db : Db) (cache : List (String × Category)),
    seedCacheOk db cache → (∀ it ∈ items, seedCovers db it) →
    seedRun db cache items = Except.ok db := by
  induction items with
  | nil =>
    intro db cache _ _
    rfl
  | cons it its ih =>
    intro db cache hok hcov
    obtain ⟨cache1, hstep, hok1⟩ := seedStep_noop db cache it hok
      (hcov it (List.mem_cons_self _ _))
    unfold seedRun
    rw [hstep]
    dsimp only
    exact ih db cache1 hok1 (fun x hx => hcov x (List.mem_cons_of_mem _ hx))

/-! ## JSON round-trip lemmas -/

/-- A character kept verbatim by the escaper is neither quote nor
backslash. -/
theorem skipWs_not_ws {c : Char} (h : isWsC c = false) (l : List Char) :
    skipWs (c :: l) = c :: l := by
  unfold skipWs
  rw [h]
  simp

/-- Parsing a string body undoes the escaping, consuming through the
closing quote. -/
theorem parseStrBody_esc (l rest : List Char) :
    parseStrBody (escChars l ++ (qc :: rest)) = some (l, rest) := by
  induction l with
  | nil =>
    show parseStrBody (qc :: rest) = some ([], rest)
    unfold parseStrBody
    simp
  | cons c t ih =>
    by_cases hc : (c == qc || c == bsl) = true
    · have hesc : escChars (c :: t) ++ (qc :: rest)
          = bsl :: (c :: (escChars t ++ (qc :: rest))) := by
        simp only [escChars, if_pos hc, List.cons_append]
      rw [hesc]
      have hbq : (bsl == qc) = false := by decide
      have hbb : (bsl == bsl) = true := by decide
      unfold parseStrBody
      rw [hbq]
      simp only [Bool.false_eq_true, if_false, hbb, if_true, hc, ih]
    · have hesc : escChars (c :: t) ++ (qc :: rest)
          = c :: (escChars t ++ (qc :: rest)) := by
        simp only [escChars, if_neg hc, List.cons_append]
      rw [hesc]
      simp only [Bool.or_eq_true, not_or] at hc
      have hq : (c == qc) = false := Bool.of_not_eq_true hc.1
      have hb : (c == bsl) = false := Bool.of_not_eq_true hc.2
      unfold parseStrBody
      rw [hq, hb]
      simp only [Bool.false_eq_true, if_false, ih]

/-- Parsing a printed string literal yields the string and the rest. -/
theorem parseVal_qstr (f : Nat) (s : String) (rest : List Char) :
    parseVal (f + 1) (qstrChars s ++ rest) = some (JVal.jstr s, rest) := by
  have h1 : qstrChars s ++ rest = qc :: (escChars s.toList ++ (qc :: rest)) := by
    simp [qstrChars]
  rw [h1]
  have hws : isWsC qc = false := by decide
  have hqq : (qc == qc) = true := by decide
  simp only [parseVal, skipWs_not_ws hws, hqq, if_true, parseStrBody_esc,
    mk_toList]

/-- The printed items of a nonempty list start with a quote character. -/
theorem itemsChars_head (x : String) (xs : List String) (l : List Char) :
    ∃ t, itemsChars (x :: xs) ++ l = qc :: t := by
  cases xs with
  | nil => exact ⟨escChars x.toList ++ [qc] ++ l, by simp [itemsChars, qstrChars]⟩
  | cons y ys =>
    exact ⟨(escChars x.toList ++ [qc]) ++ (',' :: ' ' :: itemsChars (y :: ys)) ++ l,
      by simp [itemsChars, qstrChars]⟩

/-- Each printed item contributes at least one character. -/
theorem itemsChars_len (ps : List String) : ps.length ≤ (itemsChars ps).length := by
  induction ps with
  | nil => simp [itemsChars]
  | cons s tl ih =>
    cases tl with
    | nil => simp [itemsChars, qstrChars]
    | cons y ys =>
      have : itemsChars (s :: y :: ys) =
          qstrChars s ++ (',' :: ' ' :: itemsChars (y :: ys)) := rfl
      rw [this]
      simp only [List.length_append, List.length_cons, qstrChars]
      simp only [List.length_cons, List.length] at ih ⊢
      omega

/-- Parsing the printed items of a nonempty string list, given enough
fuel, returns the corresponding string values and consumes the closing
bracket. -/
theorem parseItems_printed (ps : List String) (rest : List Char) (f : Nat)
    (hne : ps ≠ []) (hf : ps.length + 1 ≤ f) :
    parseItems f (itemsChars ps ++ (']' :: rest)) =
      some (ps.map JVal.jstr, rest) := by
  induction ps generalizing f rest with
  | nil => exact absurd rfl hne
  | cons s tl ih =>
    cases f with
    | zero => omega
    | succ f2 =>
      cases tl with
      | nil =>
        cases f2 with
        | zero => simp at hf
        | succ f3 =>
          have hitems : itemsChars [s] ++ (']' :: rest) =
              qstrChars s ++ (']' :: rest) := rfl
          rw [hitems]
          have hwsr : isWsC ']' = false := by decide
          have hcm : (']' == ',') = false := by decide
          have hbr : (']' == ']') = true := by decide
          simp only [parseItems, parseVal_qstr f3 s (']' :: rest),
            skipWs_not_ws hwsr, hcm, Bool.false_eq_true, if_false, hbr, if_true]
          rfl
      | cons y ys =>
        cases f2 with
        | zero => simp at hf
        | succ f3 =>
          have hitems : itemsChars (s :: y :: ys) ++ (']' :: rest) =
              qstrChars s ++ (',' :: ' ' :: (itemsChars (y :: ys)
                ++ (']' :: rest))) := by
            show (qstrChars s ++ (',' :: ' ' :: itemsChars (y :: ys)))
                ++ (']' :: rest) = _
            rw [List.append_assoc]
            rfl
          rw [hitems]
          have hwsc : isWsC ',' = false := by decide
          have hcc : ((',' == ',') = true) := by decide
          obtain ⟨t, ht⟩ := itemsChars_head y ys (']' :: rest)
          have hskip : skipWs (' ' :: (itemsChars (y :: ys) ++ (']' :: rest)))
              = itemsChars (y :: ys) ++ (']' :: rest) := by
            rw [ht]
            have hws1 : isWsC ' ' = true := by decide
            have hws2 : isWsC qc = false := by decide
            unfold skipWs
            rw [hws1]
            simp only [if_true]
            exact skipWs_not_ws hws2 t
          have hrec := ih rest (f3 + 1) (by simp)
            (by simp only [List.length_cons] at hf ⊢; omega)
          show (match parseVal (f3 + 1) (qstrChars s ++ (',' :: ' ' ::
              (itemsChars (y :: ys) ++ (']' :: rest)))) with
            | none => none
            | some (v, r1) =>
              match skipWs r1 with
              | [] => none
              | c :: r =>
                if (c == ',') = true then
                  match parseItems (f3 + 1) (skipWs r) with
                  | some (vs, rem) => some (v :: vs, rem)
                  | none => none
                else if (c == ']') = true then some ([v], r) else none)
            = some ((s :: y :: ys).map JVal.jstr, rest)
          rw [parseVal_qstr f3 s (',' :: ' ' ::
            (itemsChars (y :: ys) ++ (']' :: rest)))]
          dsimp only
          rw [skipWs_not_ws hwsc]
          dsimp only
          rw [if_pos hcc, hskip, hrec]
          rfl

/-- The dumped items of mapped string values are the printed items. -/
theorem jDumpsItems_map_jstr (ps : List String) :
    jDumpsItems (ps.map JVal.jstr) = itemsChars ps := by
  induction ps with
  | nil => rfl
  | cons s tl ih =>
    cases tl with
    | nil => rfl
    | cons y ys =>
      show jDumpsVal (JVal.jstr s) ++ (',' :: ' ' ::
        jDumpsItems ((y :: ys).map JVal.jstr)) = _
      rw [ih]
      rfl

/-- Loading the dump of a nonempty string list returns exactly the list of
string values. -/
theorem jLoads_dumps (ps : List String) (hne : ps ≠ []) :
    jLoads (jDumpsList ps) = some (JVal.jarr (ps.map JVal.jstr)) := by
  obtain ⟨x, xs, rfl⟩ := List.exists_cons_of_ne_nil hne
  have hlen : (jDumpsList (x :: xs)).length =
      (itemsChars (x :: xs)).length + 2 := by
    unfold jDumpsList
    rw [String.length_mk]
    simp
  have htl : (jDumpsList (x :: xs)).toList =
      '[' :: (itemsChars (x :: xs) ++ [']']) := rfl
  unfold jLoads
  rw [hlen, htl]
  have hwsb : isWsC '[' = false := by decide
  have hbq : ('[' == qc) = false := by decide
  have hbb : ('[' == '[') = true := by decide
  obtain ⟨t, ht⟩ := itemsChars_head x xs [']']
  have hws2 : isWsC qc = false := by decide
  have hqbr : (qc == ']') = false := by decide
  have hrec := parseItems_printed (x :: xs) [] ((itemsChars (x :: xs)).length + 2)
    (by simp) (by have h := itemsChars_len (x :: xs); omega)
  simp only [parseVal, skipWs_not_ws hwsb, hbq, Bool.false_eq_true, if_false,
    hbb, if_true, ht, skipWs_not_ws hws2, hqbr]
  rw [← ht]
  simp only [hrec]
  rfl

/-! ## Claim C6 -/

/-- C6 counterexample: a malformed (non-JSON) payload does not decode to
the empty list — it is lifted into a one-element list holding the raw
payload. -/
theorem C6_counterexample :
    get_platforms (some "[oops") = JVal.jarr [JVal.jstr "[oops"] ∧
    JVal.jarr [JVal.jstr "[oops"] ≠ JVal.jarr [] := by
  constructor
  · rfl
  · intro h
    simp at h

/-- C6 amended: decoding never raises — an absent or empty payload decodes
to the empty list, a stored (dumped) platform list decodes back to exactly
that list, and a malformed payload is lifted into a one-element list
holding the raw payload (the same lifting as a legacy scalar), not the
empty list. -/
theorem C6_get_platforms :
    get_platforms none = JVal.jarr [] ∧
    get_platforms (some "") = JVal.jarr [] ∧
    (∀ s : String, s ≠ "" → jLoads s = none →
       get_platforms (some s) = JVal.jarr [JVal.jstr s]) ∧
    (∀ ps : List String,
       get_platforms (set_platforms_list ps) = JVal.jarr (ps.map JVal.jstr)) := by
  refine ⟨rfl, rfl, ?_, ?_⟩
  · intro s hs hload
    have hem : s.isEmpty = false :=
      Bool.of_not_eq_true (fun h => hs ((String.isEmpty_iff s).mp h))
    simp only [get_platforms, pyTruthyS, hem, hload, Bool.not_false, if_true]
  · intro ps
    cases ps with
    | nil => rfl
    | cons x xs =>
      have hdump : set_platforms_list (x :: xs) = some (jDumpsList (x :: xs)) := by
        unfold set_platforms_list set_platforms
        have htr : pyTruthyJ (JVal.jarr ((x :: xs).map JVal.jstr)) = true := rfl
        rw [htr]
        simp only [if_true]
        unfold jDumpsList
        have : jDumpsVal (JVal.jarr ((x :: xs).map JVal.jstr)) =
            '[' :: (itemsChars (x :: xs) ++ [']']) := by
          show '[' :: (jDumpsItems ((x :: xs).map JVal.jstr) ++ [']']) = _
          rw [jDumpsItems_map_jstr]
        rw [this]
      rw [hdump]
      have hem : (jDumpsList (x :: xs)).isEmpty = false := by
        refine Bool.of_not_eq_true (fun h => ?_)
        have h1 := (String.isEmpty_iff _).mp h
        unfold jDumpsList at h1
        have h2 := congrArg String.toList h1
        simp at h2
      simp only [get_platforms, pyTruthyS, hem, Bool.not_false, if_true,
        jLoads_dumps (x :: xs) (by simp)]

/-- C6 witness: the malformed-payload branch of the amended theorem at the
concrete payload. -/
theorem C6_get_platforms_witness :
    get_platforms (some "ChatGPT") = JVal.jarr [JVal.jstr "ChatGPT"] :=
  C6_get_platforms.2.2.1 "ChatGPT" (by decide) (by rfl)

/-! ## Claim C9 -/

/-- C9: the seed import is idempotent — whenever a run completes (a run
aborts with an integrity error when an unseen category name collides on
the unique slug), a second run on the state the first run produced finds
every category by exact name and every prompt by title and category id,
creates nothing new, and returns the same store unchanged. -/
theorem C9_seed_idempotent (db db1 : Db) (items : List SeedItem)
    (h : import_seed_data db items = Except.ok db1) :
    import_seed_data db1 items = Except.ok db1 := by
  unfold import_seed_data at h ⊢
  obtain ⟨_, hcov⟩ := seed_run_covers items db [] db1
    (by intro n cat hm; cases hm) h
  exact seed_run_noop items db1 [] (by intro n cat hm; cases hm) hcov

/-- C9 witness: the idempotence theorem applied to the state the concrete
one-record import produces. -/
theorem C9_seed_idempotent_witness :
    import_seed_data exDbSeeded exSeedItems = Except.ok exDbSeeded :=
  C9_seed_idempotent exDb exDbSeeded exSeedItems (by rfl)

end PromptLib
